import Mathlib

/-
Shallow embedding of `tools/make-doc.py` (taskolib).

The script reads a version from the file LIBNO, rewrites the Doxygen
configuration `data/Doxyfile` line by line, pipes the rewritten text to
`doxygen -`, and finally walks the declared output directory adjusting the
permission bits of every directory and file, ignoring PermissionError on
individual chmod calls.

Text is modelled as `List Char`; a configuration line is its content without
the trailing newline.  The whitespace class is the ASCII part of Python's
regex class and of `str.strip`.  Fallible steps return `Option`/`Except`.
-/

namespace MakeDoc

/-- ASCII whitespace, as matched by Python's regex class and `str.strip`. -/
def isPySpace (c : Char) : Bool :=
  c == ' ' || c == '\t' || c == '\n' || c == '\x0b' || c == '\x0c' || c == '\r'

/-- The character class `[0123456789.]` of the PROJECT_NUMBER regex (line 69). -/
def isVerChar (c : Char) : Bool :=
  c.isDigit || c == '.'

/-- Group 2 of `re.match(r'^(.*=)?(.*)', entire_file, re.S)` (line 39): the
greedy optional first group swallows everything up to and including the last
`=` of the whole contents, so group 2 is the text after the last `=`, or the
whole contents when no `=` occurs. -/
def afterLastEq : List Char → List Char
  | [] => []
  | c :: rest =>
    if '=' ∈ rest then afterLastEq rest
    else if c == '=' then rest
    else c :: rest

/-- Python `str.strip()` restricted to ASCII whitespace. -/
def pyStrip (l : List Char) : List Char :=
  ((l.dropWhile isPySpace).reverse.dropWhile isPySpace).reverse

/-- Lines 39-45 of the script: extract the version from the LIBNO contents.
`none` models `sys.exit("Unable to find version in LIBNO")`, which fires when
group 2 of the match is empty (the falsiness test happens before `strip`). -/
def extractVersion (contents : List Char) : Option (List Char) :=
  let g2 := afterLastEq contents
  if g2 = [] then none else some (pyStrip g2)

/-- Spec-side reading of the version segment: the maximal `=`-free suffix of
the contents, written independently of the regex embedding. -/
def specAfterLastEq (l : List Char) : List Char :=
  (l.reverse.takeWhile (fun c => !(c == '='))).reverse

/-- Whether the contents end in the character `=`. -/
def endsWithEq : List Char → Bool
  | [] => false
  | [c] => c == '='
  | _ :: c :: rest => endsWithEq (c :: rest)

/-- The literal OUTPUT_DIRECTORY of the regex on line 64. -/
def odKey : List Char :=
  ['O','U','T','P','U','T','_','D','I','R','E','C','T','O','R','Y']

/-- The literal PROJECT_NUMBER of the regex on line 69. -/
def pnKey : List Char :=
  ['P','R','O','J','E','C','T','_','N','U','M','B','E','R']

/-- Line 54, `re.match('^\s*$', line)`: the line is entirely whitespace. -/
def isBlank (l : List Char) : Bool := l.all isPySpace

/-- Line 59, `re.match('^\s*#', line)`: optional whitespace then `#`. -/
def isComment (l : List Char) : Bool :=
  (l.dropWhile isPySpace).head? == some '#'

/-- Line 64, `re.match('^\s*OUTPUT_DIRECTORY\s*=\s*(.*)\s*$', line)`: on
success, group 1.  The greedy `(.*)` reaches the end of the line (the final
`\s*` matches the empty string), so the captured value keeps its trailing
whitespace; only the whitespace between `=` and the value is skipped. -/
def matchOutputDir (l : List Char) : Option (List Char) :=
  let l1 := l.dropWhile isPySpace
  if l1.take 16 = odKey then
    let l2 := (l1.drop 16).dropWhile isPySpace
    if l2.head? = some '=' then some (l2.tail.dropWhile isPySpace)
    else none
  else none

/-- Line 69, `re.match('^(\s*PROJECT_NUMBER\s*=\s*)([0123456789.]+)(.*)$',
line)`: on success, the triple of groups 1-3.  Group 1 is the prefix through
the whitespace after `=`, group 2 the maximal nonempty run of digits and
dots, group 3 the rest of the line. -/
def matchProjectNumber (l : List Char) : Option (List Char × List Char × List Char) :=
  let ws1 := l.takeWhile isPySpace
  let l1 := l.dropWhile isPySpace
  if l1.take 14 = pnKey then
    let l2 := l1.drop 14
    let ws2 := l2.takeWhile isPySpace
    let l3 := l2.dropWhile isPySpace
    if l3.head? = some '=' then
      let rest := l3.tail
      let ws3 := rest.takeWhile isPySpace
      let r2 := rest.dropWhile isPySpace
      let num := r2.takeWhile isVerChar
      if num = [] then none
      else some (ws1 ++ pnKey ++ ws2 ++ ['='] ++ ws3, num, r2.drop num.length)
    else none
  else none

/-- The loop over the Doxyfile lines (lines 52-74).  Returns the list of
lines accumulated into `str` (the blob later piped to doxygen) together with
the final value of `output_directory`.  Blank and comment lines `continue`
without touching `str`; an OUTPUT_DIRECTORY match assigns `output_directory`
(so the last matching line wins) and still falls through; a PROJECT_NUMBER
match appends the rewritten line and `continue`s; every other line is
appended unchanged. -/
def transformConfig (v : List Char) : List (List Char) → List (List Char) × Option (List Char)
  | [] => ([], none)
  | line :: rest =>
    if isBlank line then transformConfig v rest
    else if isComment line then transformConfig v rest
    else
      let res := transformConfig v rest
      let od : Option (List Char) :=
        match res.2 with
        | some g => some g
        | none => matchOutputDir line
      match matchProjectNumber line with
      | some (pre, _, post) => ((pre ++ v ++ post) :: res.1, od)
      | none => (line :: res.1, od)

/-- The last OUTPUT_DIRECTORY capture of the line list, written with standard
list combinators (spec-side reading of the capture). -/
def lastOutputDirCapture (lines : List (List Char)) : Option (List Char) :=
  (lines.filterMap matchOutputDir).getLast?

/-- stat.S_IRUSR. -/
def S_IRUSR : Nat := 0o400
/-- stat.S_IWUSR. -/
def S_IWUSR : Nat := 0o200
/-- stat.S_IXUSR. -/
def S_IXUSR : Nat := 0o100
/-- stat.S_IRGRP. -/
def S_IRGRP : Nat := 0o40
/-- stat.S_IWGRP. -/
def S_IWGRP : Nat := 0o20
/-- stat.S_IXGRP. -/
def S_IXGRP : Nat := 0o10
/-- stat.S_IROTH. -/
def S_IROTH : Nat := 0o4
/-- stat.S_IWOTH. -/
def S_IWOTH : Nat := 0o2
/-- stat.S_IXOTH. -/
def S_IXOTH : Nat := 0o1

/-- The mode passed to `os.chmod(dirpath, ...)` on lines 82-85, exactly the
bits listed there. -/
def dirMode : Nat :=
  S_IRUSR ||| S_IRGRP ||| S_IROTH |||
  S_IXUSR ||| S_IXGRP ||| S_IXOTH |||
  S_IWUSR ||| S_IWGRP

/-- The mode passed to `os.chmod(os.path.join(dirpath, filename), ...)` on
lines 92-94, exactly the bits listed there. -/
def fileMode : Nat :=
  S_IRUSR ||| S_IRGRP ||| S_IROTH |||
  S_IWUSR ||| S_IWGRP

/-- Whether a mode grants a permission bit. -/
def grants (mode bit : Nat) : Bool := mode.land bit != 0

/-- Outcome of one `os.chmod` call: success, `PermissionError`, or an
exception of any other type. -/
inductive ChmodOutcome where
  | ok
  | permissionDenied
  | otherError
deriving DecidableEq

/-- One triple yielded by `os.walk(output_directory)`: the directory path and
the file names it contains (`dirnames` is unused by the script). -/
structure WalkItem where
  dirpath : List String
  filenames : List String

/-- A successful chmod: the path, whether it was the directory chmod of the
walk body (`true`) or a file chmod (`false`), and the mode that was set. -/
abbrev ChmodEvent := List String × Bool × Nat

/-- The inner loop over `filenames` (lines 90-97): chmod each file to
`fileMode`; `PermissionError` is caught and ignored, any other exception
propagates (modelled as `Except.error ()`, the process dying). -/
def chmodFilesLoop (oracle : List String → ChmodOutcome) (dirpath : List String) :
    List String → Except Unit (List ChmodEvent)
  | [] => .ok []
  | f :: rest =>
    match oracle (dirpath ++ [f]) with
    | .otherError => .error ()
    | .ok =>
      match chmodFilesLoop oracle dirpath rest with
      | .error e => .error e
      | .ok evs => .ok ((dirpath ++ [f], false, fileMode) :: evs)
    | .permissionDenied => chmodFilesLoop oracle dirpath rest

/-- The walk body (lines 80-97): for each `os.walk` item, chmod the directory
to `dirMode` (PermissionError ignored, other exceptions propagate), then run
the file loop.  The result collects every chmod that succeeded. -/
def walkLoop (oracle : List String → ChmodOutcome) : List WalkItem → Except Unit (List ChmodEvent)
  | [] => .ok []
  | item :: rest =>
    match oracle item.dirpath with
    | .otherError => .error ()
    | .ok =>
      match chmodFilesLoop oracle item.dirpath item.filenames with
      | .error e => .error e
      | .ok fs =>
        match walkLoop oracle rest with
        | .error e => .error e
        | .ok rs => .ok (((item.dirpath, true, dirMode) :: fs) ++ rs)
    | .permissionDenied =>
      match chmodFilesLoop oracle item.dirpath item.filenames with
      | .error e => .error e
      | .ok fs =>
        match walkLoop oracle rest with
        | .error e => .error e
        | .ok rs => .ok (fs ++ rs)

/-- All paths the walk attempts to chmod, in attempt order. -/
def walkTargets : List WalkItem → List (List String)
  | [] => []
  | item :: rest =>
    item.dirpath :: (item.filenames.map (fun f => item.dirpath ++ [f]) ++ walkTargets rest)

/-- The events the file loop produces when no chmod raises a non-permission
error: exactly the files whose chmod succeeds, at `fileMode`. -/
def okFileEvents (oracle : List String → ChmodOutcome) (dirpath : List String) :
    List String → List ChmodEvent
  | [] => []
  | f :: rest =>
    if oracle (dirpath ++ [f]) = .ok then
      (dirpath ++ [f], false, fileMode) :: okFileEvents oracle dirpath rest
    else okFileEvents oracle dirpath rest

/-- The events the walk produces when no chmod raises a non-permission
error. -/
def okEvents (oracle : List String → ChmodOutcome) : List WalkItem → List ChmodEvent
  | [] => []
  | item :: rest =>
    (if oracle item.dirpath = .ok then [(item.dirpath, true, dirMode)] else []) ++
      okFileEvents oracle item.dirpath item.filenames ++ okEvents oracle rest

/-- Observable result of a successful run of the script. -/
structure DriverResult where
  version : List Char
  doxygenInput : List (List Char)
  outputDirectory : Option (List Char)
  walkEvents : Except Unit (List ChmodEvent)

/-- The whole script as a function.  `walkFn` abstracts `os.walk` (the
filesystem enumeration under the captured output directory, which is `none`
when no config line matched); `oracle` abstracts the outcome of each chmod;
`doxygenExit` is the exit status of the `doxygen -` subprocess, whose
`CompletedProcess` the script discards without looking at it. -/
def driver (libno : List Char) (config : List (List Char))
    (walkFn : Option (List Char) → List WalkItem)
    (oracle : List String → ChmodOutcome) (doxygenExit : Int) :
    Except (List Char) DriverResult :=
  match extractVersion libno with
  | none => .error ("Unable to find version in LIBNO".toList)
  | some v =>
    let res := transformConfig v config
    .ok { version := v
          doxygenInput := res.1
          outputDirectory := res.2
          walkEvents := walkLoop oracle (walkFn res.2) }

/-! Helper lemmas. -/

theorem dropWhile_append_all {p : Char → Bool} (ws l : List Char)
    (h : ∀ c ∈ ws, p c = true) :
    List.dropWhile p (ws ++ l) = List.dropWhile p l := by
  induction ws with
  | nil => rfl
  | cons a t ih =>
    rw [List.cons_append, List.dropWhile_cons_of_pos (h a (by simp))]
    exact ih (fun c hc => h c (by simp [hc]))

theorem takeWhile_append_all {p : Char → Bool} (ws l : List Char)
    (h : ∀ c ∈ ws, p c = true) :
    List.takeWhile p (ws ++ l) = ws ++ List.takeWhile p l := by
  induction ws with
  | nil => rfl
  | cons a t ih =>
    rw [List.cons_append, List.takeWhile_cons_of_pos (h a (by simp)), ih
      (fun c hc => h c (by simp [hc])), List.cons_append]

theorem takeWhile_append_stop {p : Char → Bool} (xs ys : List Char)
    (h : ∃ x ∈ xs, p x = false) :
    List.takeWhile p (xs ++ ys) = List.takeWhile p xs := by
  induction xs with
  | nil => rcases h with ⟨x, hx, _⟩; exact absurd hx (List.not_mem_nil x)
  | cons a t ih =>
    rcases hpa : p a with _ | _
    · rw [List.cons_append, List.takeWhile_cons_of_neg (by simp [hpa]),
        List.takeWhile_cons_of_neg (by simp [hpa])]
    · rcases h with ⟨x, hx, hpx⟩
      rcases List.mem_cons.1 hx with rfl | hxt
      · exact absurd hpa (by simp [hpx])
      · rw [List.cons_append, List.takeWhile_cons_of_pos (by simp [hpa]),
          List.takeWhile_cons_of_pos (by simp [hpa]), ih ⟨x, hxt, hpx⟩]

theorem verChar_not_space (c : Char) (h : isVerChar c = true) : isPySpace c = false := by
  rcases hs : isPySpace c with _ | _
  · rfl
  · exfalso
    have hs' : c = ' ' ∨ c = '\t' ∨ c = '\n' ∨ c = '\x0b' ∨ c = '\x0c' ∨ c = '\r' := by
      simpa [isPySpace, or_assoc] using hs
    rcases hs' with rfl | rfl | rfl | rfl | rfl | rfl <;> simp [isVerChar] at h

/-! Version extraction (lines 39-45). -/

theorem endsWithEq_cons (c d : Char) (rest : List Char) :
    endsWithEq (c :: d :: rest) = endsWithEq (d :: rest) := rfl

theorem endsWithEq_mem (l : List Char) (h : endsWithEq l = true) : '=' ∈ l := by
  induction l with
  | nil => simp [endsWithEq] at h
  | cons c rest ih =>
    cases rest with
    | nil =>
      simp only [endsWithEq, beq_iff_eq] at h
      simp [h]
    | cons d t =>
      rw [endsWithEq_cons] at h
      exact List.mem_cons_of_mem c (ih h)

theorem afterLastEq_eq_nil_iff (l : List Char) :
    afterLastEq l = [] ↔ (l = [] ∨ endsWithEq l = true) := by
  induction l with
  | nil => simp [afterLastEq]
  | cons c rest ih =>
    by_cases hm : '=' ∈ rest
    · have hrest : rest ≠ [] := by rintro rfl; exact absurd hm (List.not_mem_nil _)
      rw [afterLastEq, if_pos hm, ih]
      rcases rest with _ | ⟨d, t⟩
      · exact absurd rfl hrest
      · simp [endsWithEq_cons]
    · rw [afterLastEq, if_neg hm]
      by_cases hc : c == '='
      · rw [if_pos hc]
        constructor
        · rintro rfl
          right
          simpa [endsWithEq] using hc
        · rintro (h | h)
          · exact absurd h (by simp)
          · rcases rest with _ | ⟨d, t⟩
            · rfl
            · rw [endsWithEq_cons] at h
              exact absurd (endsWithEq_mem _ h) hm
      · rw [if_neg hc]
        constructor
        · intro h; exact absurd h (by simp)
        · rintro (h | h)
          · exact absurd h (by simp)
          · have : '=' ∈ c :: rest := endsWithEq_mem _ h
            rcases List.mem_cons.1 this with heq | hmem
            · exact absurd (by simpa using heq.symm) (by simpa using hc)
            · exact absurd hmem hm

theorem extractVersion_eq_none_iff (l : List Char) :
    extractVersion l = none ↔ (l = [] ∨ endsWithEq l = true) := by
  rw [← afterLastEq_eq_nil_iff]
  simp only [extractVersion]
  by_cases h : afterLastEq l = [] <;> simp [h]

theorem afterLastEq_eq_spec (l : List Char) : afterLastEq l = specAfterLastEq l := by
  induction l with
  | nil => rfl
  | cons c rest ih =>
    by_cases hm : '=' ∈ rest
    · rw [afterLastEq, if_pos hm, ih]
      simp only [specAfterLastEq, List.reverse_cons]
      rw [takeWhile_append_stop _ _ ⟨'=', by simp [hm], by simp⟩]
    · by_cases hc : c == '='
      · rw [afterLastEq, if_neg hm, if_pos hc]
        have hc' : c = '=' := by simpa using hc
        subst hc'
        simp only [specAfterLastEq, List.reverse_cons]
        rw [takeWhile_append_all _ _ (fun x hx => by
          simp only [Bool.not_eq_true']
          rcases List.mem_reverse.1 hx with hxr
          exact beq_false_of_ne (fun he => hm (he ▸ hxr)))]
        simp
      · rw [afterLastEq, if_neg hm, if_neg hc]
        simp only [specAfterLastEq, List.reverse_cons]
        rw [takeWhile_append_all _ _ (fun x hx => by
          simp only [Bool.not_eq_true']
          rcases List.mem_reverse.1 hx with hxr
          exact beq_false_of_ne (fun he => hm (he ▸ hxr)))]
        have : List.takeWhile (fun x => !(x == '=')) [c] = [c] := by
          rw [List.takeWhile_cons_of_pos (by simpa using hc)]
          rfl
        rw [this]
        simp

/-! Configuration-line matching. -/

theorem dropWhile_pn (x : List Char) : (pnKey ++ x).dropWhile isPySpace = pnKey ++ x := by
  simp only [pnKey, List.cons_append, List.nil_append]
  rw [List.dropWhile_cons_of_neg (by decide)]

theorem takeWhile_pn (x : List Char) : (pnKey ++ x).takeWhile isPySpace = [] := by
  simp only [pnKey, List.cons_append, List.nil_append]
  rw [List.takeWhile_cons_of_neg (by decide)]

theorem dropWhile_od (x : List Char) : (odKey ++ x).dropWhile isPySpace = odKey ++ x := by
  simp only [odKey, List.cons_append, List.nil_append]
  rw [List.dropWhile_cons_of_neg (by decide)]

theorem dropWhile_blank (l : List Char) (h : isBlank l = true) :
    l.dropWhile isPySpace = [] :=
  List.dropWhile_eq_nil_iff.2 (List.all_eq_true.1 h)

theorem matchOutputDir_none_of_head (l : List Char) (c : Char) (t : List Char)
    (hd : l.dropWhile isPySpace = c :: t) (hc : c ≠ 'O') : matchOutputDir l = none := by
  have hcond : ¬ ((c :: t).take 16 = odKey) := by
    intro hTake
    have h1 : ((c :: t).take 16).head? = odKey.head? := by rw [hTake]
    rw [List.head?_take] at h1
    simp only [odKey] at h1
    simp at h1
    exact hc h1
  simp only [matchOutputDir, hd]
  rw [if_neg hcond]

theorem matchProjectNumber_none_of_head (l : List Char) (c : Char) (t : List Char)
    (hd : l.dropWhile isPySpace = c :: t) (hc : c ≠ 'P') : matchProjectNumber l = none := by
  have hcond : ¬ ((c :: t).take 14 = pnKey) := by
    intro hTake
    have h1 : ((c :: t).take 14).head? = pnKey.head? := by rw [hTake]
    rw [List.head?_take] at h1
    simp only [pnKey] at h1
    simp at h1
    exact hc h1
  simp only [matchProjectNumber, hd]
  rw [if_neg hcond]

theorem matchOutputDir_none_of_blank (l : List Char) (h : isBlank l = true) :
    matchOutputDir l = none := by
  simp only [matchOutputDir, dropWhile_blank l h]
  rw [if_neg (by simp [odKey])]

theorem matchOutputDir_none_of_comment (l : List Char) (h : isComment l = true) :
    matchOutputDir l = none := by
  rcases hd : l.dropWhile isPySpace with _ | ⟨c, t⟩
  · simp [isComment, hd] at h
  · have hc : c = '#' := by
      simp only [isComment, hd, List.head?_cons, beq_iff_eq, Option.some.injEq] at h
      exact h
    exact matchOutputDir_none_of_head l c t hd (by simp [hc])

theorem matchOutputDir_decomp (ws1 ws2 tail : List Char)
    (h1 : ∀ c ∈ ws1, isPySpace c = true) (h2 : ∀ c ∈ ws2, isPySpace c = true) :
    matchOutputDir (ws1 ++ (odKey ++ (ws2 ++ '=' :: tail)))
      = some (tail.dropWhile isPySpace) := by
  have hdw : (ws1 ++ (odKey ++ (ws2 ++ '=' :: tail))).dropWhile isPySpace
      = odKey ++ (ws2 ++ '=' :: tail) := by
    rw [dropWhile_append_all ws1 _ h1, dropWhile_od]
  simp only [matchOutputDir, hdw]
  rw [List.take_left' (by decide : odKey.length = 16), if_pos rfl,
    List.drop_left' (by decide : odKey.length = 16),
    dropWhile_append_all ws2 _ h2, List.dropWhile_cons_of_neg (by decide)]
  simp

theorem matchProjectNumber_decomp (ws1 ws2 ws3 num post : List Char)
    (h1 : ∀ c ∈ ws1, isPySpace c = true) (h2 : ∀ c ∈ ws2, isPySpace c = true)
    (h3 : ∀ c ∈ ws3, isPySpace c = true)
    (h4 : num ≠ []) (h5 : ∀ c ∈ num, isVerChar c = true)
    (h6 : ∀ c, post.head? = some c → isVerChar c = false) :
    matchProjectNumber (ws1 ++ (pnKey ++ (ws2 ++ '=' :: (ws3 ++ (num ++ post)))))
      = some (ws1 ++ pnKey ++ ws2 ++ ['='] ++ ws3, num, post) := by
  rcases num with _ | ⟨n0, nt⟩
  · exact absurd rfl h4
  have hn0s : isPySpace n0 = false := verChar_not_space _ (h5 n0 (by simp))
  have hdw : (ws1 ++ (pnKey ++ (ws2 ++ '=' :: (ws3 ++ ((n0 :: nt) ++ post))))).dropWhile isPySpace
      = pnKey ++ (ws2 ++ '=' :: (ws3 ++ ((n0 :: nt) ++ post))) := by
    rw [dropWhile_append_all ws1 _ h1, dropWhile_pn]
  have htw : (ws1 ++ (pnKey ++ (ws2 ++ '=' :: (ws3 ++ ((n0 :: nt) ++ post))))).takeWhile isPySpace
      = ws1 := by
    rw [takeWhile_append_all ws1 _ h1, takeWhile_pn, List.append_nil]
  have hpost : (n0 :: nt ++ post).takeWhile isVerChar = n0 :: nt ++ List.takeWhile isVerChar post := by
    have := takeWhile_append_all (p := isVerChar) (n0 :: nt) post h5
    simpa using this
  have hpostTw : List.takeWhile isVerChar post = [] := by
    rcases post with _ | ⟨p0, pt⟩
    · rfl
    · rw [List.takeWhile_cons_of_neg (by simp [h6 p0 rfl])]
  simp only [matchProjectNumber, hdw, htw]
  rw [List.take_left' (by decide : pnKey.length = 14), if_pos rfl,
    List.drop_left' (by decide : pnKey.length = 14),
    takeWhile_append_all ws2 _ h2, List.takeWhile_cons_of_neg (by decide),
    dropWhile_append_all ws2 _ h2, List.dropWhile_cons_of_neg (by decide)]
  simp only [List.head?_cons, List.tail_cons, if_pos rfl]
  have hTw3 : List.takeWhile isPySpace ((n0 :: nt) ++ post) = [] := by
    rw [List.cons_append]
    exact List.takeWhile_cons_of_neg (by simp [hn0s])
  have hDw3 : List.dropWhile isPySpace ((n0 :: nt) ++ post) = (n0 :: nt) ++ post := by
    rw [List.cons_append]
    exact List.dropWhile_cons_of_neg (by simp [hn0s])
  rw [takeWhile_append_all ws3 _ h3, hTw3, dropWhile_append_all ws3 _ h3, hDw3]
  rw [hpost, hpostTw, List.append_nil]
  have hne : ¬ (n0 :: nt = []) := by simp
  have hdrop : List.drop (n0 :: nt).length (n0 :: nt ++ post) = post := by
    simp
  simp [hne, hdrop, List.append_assoc]

theorem matchProjectNumber_none_decomp (ws1 ws2 tail : List Char)
    (h1 : ∀ c ∈ ws1, isPySpace c = true) (h2 : ∀ c ∈ ws2, isPySpace c = true)
    (h6 : ∀ c, (tail.dropWhile isPySpace).head? = some c → isVerChar c = false) :
    matchProjectNumber (ws1 ++ (pnKey ++ (ws2 ++ '=' :: tail))) = none := by
  have hdw : (ws1 ++ (pnKey ++ (ws2 ++ '=' :: tail))).dropWhile isPySpace
      = pnKey ++ (ws2 ++ '=' :: tail) := by
    rw [dropWhile_append_all ws1 _ h1, dropWhile_pn]
  have hTw : (tail.dropWhile isPySpace).takeWhile isVerChar = [] := by
    rcases hp : tail.dropWhile isPySpace with _ | ⟨p0, pt⟩
    · rfl
    · rw [List.takeWhile_cons_of_neg (by simp [h6 p0 (by rw [hp]; rfl)])]
  simp only [matchProjectNumber, hdw]
  rw [List.take_left' (by decide : pnKey.length = 14), if_pos rfl,
    List.drop_left' (by decide : pnKey.length = 14),
    dropWhile_append_all ws2 _ h2, List.dropWhile_cons_of_neg (by decide)]
  simp only [List.head?_cons, List.tail_cons, if_pos rfl]
  rw [hTw]
  simp

/-! The config rewrite loop. -/

theorem transform_cons_skip (v line : List Char) (rest : List (List Char))
    (h : isBlank line = true ∨ isComment line = true) :
    transformConfig v (line :: rest) = transformConfig v rest := by
  rcases h with h | h
  · simp [transformConfig, h]
  · by_cases hb : isBlank line = true
    · simp [transformConfig, hb]
    · simp [transformConfig, hb, h]

theorem transform_cons_pass (v line : List Char) (rest : List (List Char))
    (hb : isBlank line = false) (hc : isComment line = false)
    (hm : matchProjectNumber line = none) :
    transformConfig v (line :: rest) =
      (line :: (transformConfig v rest).1,
       match (transformConfig v rest).2 with
       | some g => some g
       | none => matchOutputDir line) := by
  simp only [transformConfig, hb, hc, hm]
  rfl

theorem transform_cons_rewrite (v line : List Char) (rest : List (List Char))
    (pre num post : List Char)
    (hb : isBlank line = false) (hc : isComment line = false)
    (hm : matchProjectNumber line = some (pre, num, post)) :
    transformConfig v (line :: rest) =
      ((pre ++ v ++ post) :: (transformConfig v rest).1,
       match (transformConfig v rest).2 with
       | some g => some g
       | none => matchOutputDir line) := by
  simp only [transformConfig, hb, hc, hm]
  rfl

theorem getLast?_cons_eq {α : Type} (a : α) (l : List α) (hl : l ≠ []) :
    (a :: l).getLast? = l.getLast? := by
  rcases l with _ | ⟨b, t⟩
  · exact absurd rfl hl
  · exact List.getLast?_cons_cons

theorem transform_snd (v : List Char) (lines : List (List Char)) :
    (transformConfig v lines).2 = lastOutputDirCapture lines := by
  induction lines with
  | nil => rfl
  | cons line rest ih =>
    by_cases hb : isBlank line = true
    · rw [transform_cons_skip v line rest (Or.inl hb), ih]
      unfold lastOutputDirCapture
      rw [List.filterMap_cons_none (matchOutputDir_none_of_blank line hb)]
    · by_cases hc : isComment line = true
      · rw [transform_cons_skip v line rest (Or.inr hc), ih]
        unfold lastOutputDirCapture
        rw [List.filterMap_cons_none (matchOutputDir_none_of_comment line hc)]
      · have hb' : isBlank line = false := by simpa using hb
        have hc' : isComment line = false := by simpa using hc
        have hsnd : (transformConfig v (line :: rest)).2 =
            (match (transformConfig v rest).2 with
             | some g => some g
             | none => matchOutputDir line) := by
          rcases hm : matchProjectNumber line with _ | ⟨pre, num, post⟩
          · rw [transform_cons_pass v line rest hb' hc' hm]
          · rw [transform_cons_rewrite v line rest pre num post hb' hc' hm]
        rw [hsnd, ih]
        unfold lastOutputDirCapture
        rcases hod : matchOutputDir line with _ | g0
        · rw [List.filterMap_cons_none hod]
          cases hlast : (List.filterMap matchOutputDir rest).getLast? <;>
            simp [hlast, hod]
        · rw [List.filterMap_cons_some hod]
          rcases hlast : (List.filterMap matchOutputDir rest).getLast? with _ | g1
          · have h0 : List.filterMap matchOutputDir rest = [] :=
              List.getLast?_eq_none_iff.1 hlast
            rw [h0]
            simp [hlast]
          · have hne : List.filterMap matchOutputDir rest ≠ [] := by
              intro h0
              rw [h0] at hlast
              simp at hlast
            rw [getLast?_cons_eq g0 _ hne, hlast]

theorem transform_snd_none (v : List Char) (lines : List (List Char))
    (h : ∀ line ∈ lines, matchOutputDir line = none) :
    (transformConfig v lines).2 = none := by
  rw [transform_snd]
  unfold lastOutputDirCapture
  have hfm : List.filterMap matchOutputDir lines = [] := by
    induction lines with
    | nil => rfl
    | cons a t ih =>
      rw [List.filterMap_cons_none (h a (by simp))]
      exact ih (fun l hl => h l (by simp [hl]))
  rw [hfm]
  rfl

/-! The permission walk. -/

theorem chmodFiles_ok_of_noOther (oracle : List String → ChmodOutcome) (dirpath : List String)
    (fs : List String)
    (h : ∀ f ∈ fs, oracle (dirpath ++ [f]) ≠ ChmodOutcome.otherError) :
    chmodFilesLoop oracle dirpath fs = .ok (okFileEvents oracle dirpath fs) := by
  induction fs with
  | nil => rfl
  | cons f rest ih =>
    have hrest := ih (fun g hg => h g (by simp [hg]))
    rcases ho : oracle (dirpath ++ [f]) with _ | _ | _
    · simp [chmodFilesLoop, okFileEvents, ho, hrest]
    · simp [chmodFilesLoop, okFileEvents, ho, hrest]
    · exact absurd ho (h f (by simp))

theorem walkLoop_ok_of_noOther (oracle : List String → ChmodOutcome) (items : List WalkItem)
    (h : ∀ q ∈ walkTargets items, oracle q ≠ ChmodOutcome.otherError) :
    walkLoop oracle items = .ok (okEvents oracle items) := by
  induction items with
  | nil => rfl
  | cons item rest ih =>
    have hfiles : ∀ f ∈ item.filenames, oracle (item.dirpath ++ [f]) ≠ ChmodOutcome.otherError :=
      fun f hf => h _ (List.mem_cons_of_mem _
        (List.mem_append_left _ (List.mem_map.2 ⟨f, hf, rfl⟩)))
    have hrest := ih (fun q hq => h q (List.mem_cons_of_mem _ (List.mem_append_right _ hq)))
    have hfl := chmodFiles_ok_of_noOther oracle item.dirpath item.filenames hfiles
    rcases ho : oracle item.dirpath with _ | _ | _
    · simp [walkLoop, okEvents, ho, hfl, hrest]
    · simp [walkLoop, okEvents, ho, hfl, hrest]
    · exact absurd ho (h _ (List.mem_cons_self _ _))

theorem chmodFiles_error_iff (oracle : List String → ChmodOutcome) (dirpath : List String)
    (fs : List String) :
    chmodFilesLoop oracle dirpath fs = .error () ↔
      ∃ f ∈ fs, oracle (dirpath ++ [f]) = ChmodOutcome.otherError := by
  induction fs with
  | nil => simp [chmodFilesLoop]
  | cons f rest ih =>
    constructor
    · intro hE
      rcases ho : oracle (dirpath ++ [f]) with _ | _ | _
      · rcases hr : chmodFilesLoop oracle dirpath rest with e | evs
        · cases e
          rcases ih.1 hr with ⟨g, hg, hgo⟩
          exact ⟨g, by simp [hg], hgo⟩
        · simp [chmodFilesLoop, ho, hr] at hE
      · rcases hr : chmodFilesLoop oracle dirpath rest with e | evs
        · cases e
          rcases ih.1 hr with ⟨g, hg, hgo⟩
          exact ⟨g, by simp [hg], hgo⟩
        · simp [chmodFilesLoop, ho, hr] at hE
      · exact ⟨f, by simp, ho⟩
    · rintro ⟨g, hg, hgo⟩
      rcases List.mem_cons.1 hg with rfl | hgr
      · simp [chmodFilesLoop, hgo]
      · rcases ho : oracle (dirpath ++ [f]) with _ | _ | _
        · simp [chmodFilesLoop, ho, ih.2 ⟨g, hgr, hgo⟩]
        · simp [chmodFilesLoop, ho, ih.2 ⟨g, hgr, hgo⟩]
        · simp [chmodFilesLoop, ho]

theorem walkLoop_error_iff (oracle : List String → ChmodOutcome) (items : List WalkItem) :
    walkLoop oracle items = .error () ↔
      ∃ q ∈ walkTargets items, oracle q = ChmodOutcome.otherError := by
  induction items with
  | nil => simp [walkLoop, walkTargets]
  | cons item rest ih =>
    constructor
    · intro hE
      rcases ho : oracle item.dirpath with _ | _ | _
      · rcases hf : chmodFilesLoop oracle item.dirpath item.filenames with e | fevs
        · cases e
          rcases (chmodFiles_error_iff oracle item.dirpath item.filenames).1 hf with ⟨g, hg, hgo⟩
          exact ⟨item.dirpath ++ [g], List.mem_cons_of_mem _
            (List.mem_append_left _ (List.mem_map.2 ⟨g, hg, rfl⟩)), hgo⟩
        · rcases hr : walkLoop oracle rest with e | revs
          · cases e
            rcases ih.1 hr with ⟨q, hq, hqo⟩
            exact ⟨q, List.mem_cons_of_mem _ (List.mem_append_right _ hq), hqo⟩
          · simp [walkLoop, ho, hf, hr] at hE
      · rcases hf : chmodFilesLoop oracle item.dirpath item.filenames with e | fevs
        · cases e
          rcases (chmodFiles_error_iff oracle item.dirpath item.filenames).1 hf with ⟨g, hg, hgo⟩
          exact ⟨item.dirpath ++ [g], List.mem_cons_of_mem _
            (List.mem_append_left _ (List.mem_map.2 ⟨g, hg, rfl⟩)), hgo⟩
        · rcases hr : walkLoop oracle rest with e | revs
          · cases e
            rcases ih.1 hr with ⟨q, hq, hqo⟩
            exact ⟨q, List.mem_cons_of_mem _ (List.mem_append_right _ hq), hqo⟩
          · simp [walkLoop, ho, hf, hr] at hE
      · exact ⟨item.dirpath, List.mem_cons_self _ _, ho⟩
    · rintro ⟨q, hq, hqo⟩
      have hq' : q = item.dirpath ∨
          q ∈ item.filenames.map (fun f => item.dirpath ++ [f]) ∨ q ∈ walkTargets rest := by
        rcases List.mem_cons.1 hq with h1 | h1
        · exact Or.inl h1
        · rcases List.mem_append.1 h1 with h2 | h2
          · exact Or.inr (Or.inl h2)
          · exact Or.inr (Or.inr h2)
      rcases hq' with rfl | hfile | hrest
      · simp [walkLoop, hqo]
      · rcases List.mem_map.1 hfile with ⟨g, hg, rfl⟩
        have hfl : chmodFilesLoop oracle item.dirpath item.filenames = .error () :=
          (chmodFiles_error_iff oracle item.dirpath item.filenames).2 ⟨g, hg, hqo⟩
        rcases ho : oracle item.dirpath with _ | _ | _ <;>
          simp [walkLoop, ho, hfl]
      · have hrl : walkLoop oracle rest = .error () := ih.2 ⟨q, hrest, hqo⟩
        rcases ho : oracle item.dirpath with _ | _ | _ <;>
          rcases hf : chmodFilesLoop oracle item.dirpath item.filenames with e | fevs <;>
            first
              | (cases e; simp [walkLoop, ho, hf])
              | simp [walkLoop, ho, hf, hrl]

theorem chmodFiles_ok_mem (oracle : List String → ChmodOutcome) (dirpath : List String)
    (fs : List String) (evs : List ChmodEvent)
    (h : chmodFilesLoop oracle dirpath fs = .ok evs)
    (p : List String) (b : Bool) (m : Nat) (hm : (p, b, m) ∈ evs) :
    b = false ∧ m = fileMode := by
  induction fs generalizing evs with
  | nil =>
    simp only [chmodFilesLoop, Except.ok.injEq] at h
    rw [← h] at hm
    exact absurd hm (List.not_mem_nil _)
  | cons f rest ih =>
    rcases ho : oracle (dirpath ++ [f]) with _ | _ | _
    · rcases hr : chmodFilesLoop oracle dirpath rest with e | revs
      · simp [chmodFilesLoop, ho, hr] at h
      · simp only [chmodFilesLoop, ho, hr, Except.ok.injEq] at h
        rw [← h] at hm
        rcases List.mem_cons.1 hm with heq | hmem
        · have hb : b = false := congrArg (fun t => t.2.1) heq
          have hmm : m = fileMode := congrArg (fun t => t.2.2) heq
          exact ⟨hb, hmm⟩
        · exact ih revs hr hmem
    · simp only [chmodFilesLoop, ho] at h
      exact ih evs h hm
    · simp [chmodFilesLoop, ho] at h

theorem walkLoop_ok_mem (oracle : List String → ChmodOutcome) (items : List WalkItem)
    (evs : List ChmodEvent) (h : walkLoop oracle items = .ok evs)
    (p : List String) (b : Bool) (m : Nat) (hm : (p, b, m) ∈ evs) :
    m = (if b then dirMode else fileMode) := by
  induction items generalizing evs with
  | nil =>
    simp only [walkLoop, Except.ok.injEq] at h
    rw [← h] at hm
    exact absurd hm (List.not_mem_nil _)
  | cons item rest ih =>
    rcases ho : oracle item.dirpath with _ | _ | _
    · rcases hf : chmodFilesLoop oracle item.dirpath item.filenames with e | fevs
      · simp [walkLoop, ho, hf] at h
      · rcases hr : walkLoop oracle rest with e | revs
        · simp [walkLoop, ho, hf, hr] at h
        · simp only [walkLoop, ho, hf, hr, Except.ok.injEq] at h
          rw [← h] at hm
          rcases List.mem_cons.1 hm with heq | hmem
          · have hb : b = true := congrArg (fun t => t.2.1) heq
            have hmm : m = dirMode := congrArg (fun t => t.2.2) heq
            rw [hb, hmm]
            rfl
          · rcases List.mem_append.1 hmem with h2 | h2
            · rcases chmodFiles_ok_mem oracle item.dirpath item.filenames fevs hf p b m h2 with
                ⟨hb, hmm⟩
              rw [hb, hmm]
              rfl
            · exact ih revs hr h2
    · rcases hf : chmodFilesLoop oracle item.dirpath item.filenames with e | fevs
      · simp [walkLoop, ho, hf] at h
      · rcases hr : walkLoop oracle rest with e | revs
        · simp [walkLoop, ho, hf, hr] at h
        · simp only [walkLoop, ho, hf, hr, Except.ok.injEq] at h
          rw [← h] at hm
          rcases List.mem_append.1 hm with h2 | h2
          · rcases chmodFiles_ok_mem oracle item.dirpath item.filenames fevs hf p b m h2 with
              ⟨hb, hmm⟩
            rw [hb, hmm]
            rfl
          · exact ih revs hr h2
    · simp [walkLoop, ho] at h

/-! PROJECT_NUMBER-shaped lines seen by the other line tests. -/

theorem line_pn_not_blank (ws1 x : List Char) : isBlank (ws1 ++ (pnKey ++ x)) = false := by
  rcases hb : isBlank (ws1 ++ (pnKey ++ x)) with _ | _
  · rfl
  · exfalso
    have hp := List.all_eq_true.1 hb 'P'
      (List.mem_append_right ws1 (List.mem_append_left x (by decide)))
    simp [isPySpace] at hp

theorem line_pn_not_comment (ws1 x : List Char) (h1 : ∀ c ∈ ws1, isPySpace c = true) :
    isComment (ws1 ++ (pnKey ++ x)) = false := by
  unfold isComment
  rw [dropWhile_append_all ws1 _ h1, dropWhile_pn]
  simp [pnKey]

theorem line_pn_no_od (ws1 x : List Char) (h1 : ∀ c ∈ ws1, isPySpace c = true) :
    matchOutputDir (ws1 ++ (pnKey ++ x)) = none := by
  apply matchOutputDir_none_of_head _ 'P' (['R','O','J','E','C','T','_','N','U','M','B','E','R'] ++ x)
  · rw [dropWhile_append_all ws1 _ h1, dropWhile_pn]
    rfl
  · decide

/-! The driver. -/

theorem driver_some (libno : List Char) (config : List (List Char))
    (walkFn : Option (List Char) → List WalkItem) (oracle : List String → ChmodOutcome)
    (e : Int) (v : List Char) (hv : extractVersion libno = some v) :
    driver libno config walkFn oracle e =
      Except.ok ⟨v, (transformConfig v config).1, (transformConfig v config).2,
        walkLoop oracle (walkFn (transformConfig v config).2)⟩ := by
  simp [driver, hv]

theorem driver_none (libno : List Char) (config : List (List Char))
    (walkFn : Option (List Char) → List WalkItem) (oracle : List String → ChmodOutcome)
    (e : Int) (hv : extractVersion libno = none) :
    driver libno config walkFn oracle e =
      Except.error ("Unable to find version in LIBNO".toList) := by
  simp [driver, hv]

/-! Claim theorems. -/

/-- C1 counterexample: a comment line (`# x`) and a blank line are not passed
through into the transformed configuration blob — the rewrite loop `continue`s
over them, so the blob produced from a config holding only such a line is
empty and does not contain the line. -/
theorem c1_blank_comment_cex :
    (transformConfig ['9'] [['#', ' ', 'x']]).1 = [] ∧
      (transformConfig ['9'] [[' ', ' ']]).1 = [] ∧
      ¬ (['#', ' ', 'x'] ∈ (transformConfig ['9'] [['#', ' ', 'x']]).1) := by
  decide

/-- C1 (amended): every blank line and every comment line is dropped from the
transformed configuration blob: such a line contributes nothing to the
accumulated text (and nothing to the output-directory capture) — the loop
result over `line :: rest` equals the result over `rest` alone. -/
theorem c1_blank_comment_dropped (v line : List Char) (rest : List (List Char))
    (h : isBlank line = true ∨ isComment line = true) :
    transformConfig v (line :: rest) = transformConfig v rest :=
  transform_cons_skip v line rest h

/-- C1 witness: the theorem applied to the comment line `#c`. -/
theorem c1_blank_comment_dropped_witness :
    transformConfig ['9'] [['#', 'c'], ['K']] = transformConfig ['9'] [['K']] :=
  c1_blank_comment_dropped ['9'] ['#', 'c'] [['K']] (Or.inr (by decide))

/-- C2 counterexample: under an all-successful oracle the walk sets mode
`dirMode` (octal 775) on the directory and `fileMode` (octal 664) on the
file, and neither mode has the others-write bit `S_IWOTH`, contradicting the
claim that write permission is granted to others. -/
theorem c2_other_write_cex :
    walkLoop (fun _ => ChmodOutcome.ok) [⟨["docs"], ["index.html"]⟩]
        = Except.ok [(["docs"], true, dirMode), (["docs", "index.html"], false, fileMode)] ∧
      Nat.land dirMode S_IWOTH = 0 ∧ Nat.land fileMode S_IWOTH = 0 ∧
      grants dirMode S_IWOTH = false ∧ grants fileMode S_IWOTH = false := by
  refine ⟨rfl, by decide, by decide, by decide, by decide⟩

/-- C2 (amended): every mode the walk sets on a directory is `dirMode` and on
a file is `fileMode`; `dirMode` grants read, write, execute to owner and
group and read, execute — but not write — to others; `fileMode` grants read
and write to owner and group, read — but not write — to others, and execute
to nobody. -/
theorem c2_walk_modes (oracle : List String → ChmodOutcome) (items : List WalkItem)
    (evs : List ChmodEvent) (p : List String) (b : Bool) (m : Nat)
    (h : walkLoop oracle items = Except.ok evs) (hm : (p, b, m) ∈ evs) :
    m = (if b then dirMode else fileMode) ∧
      (grants dirMode S_IRUSR = true ∧ grants dirMode S_IWUSR = true ∧
       grants dirMode S_IXUSR = true ∧ grants dirMode S_IRGRP = true ∧
       grants dirMode S_IWGRP = true ∧ grants dirMode S_IXGRP = true ∧
       grants dirMode S_IROTH = true ∧ grants dirMode S_IXOTH = true ∧
       grants dirMode S_IWOTH = false) ∧
      (grants fileMode S_IRUSR = true ∧ grants fileMode S_IWUSR = true ∧
       grants fileMode S_IRGRP = true ∧ grants fileMode S_IWGRP = true ∧
       grants fileMode S_IROTH = true ∧ grants fileMode S_IWOTH = false ∧
       grants fileMode S_IXUSR = false ∧ grants fileMode S_IXGRP = false ∧
       grants fileMode S_IXOTH = false) :=
  ⟨walkLoop_ok_mem oracle items evs h p b m hm, by decide, by decide⟩

/-- C2 witness: the theorem applied to a one-directory, one-file tree with an
all-successful oracle. -/
theorem c2_walk_modes_witness :
    dirMode = (if (true : Bool) then dirMode else fileMode) ∧
      (grants dirMode S_IRUSR = true ∧ grants dirMode S_IWUSR = true ∧
       grants dirMode S_IXUSR = true ∧ grants dirMode S_IRGRP = true ∧
       grants dirMode S_IWGRP = true ∧ grants dirMode S_IXGRP = true ∧
       grants dirMode S_IROTH = true ∧ grants dirMode S_IXOTH = true ∧
       grants dirMode S_IWOTH = false) ∧
      (grants fileMode S_IRUSR = true ∧ grants fileMode S_IWUSR = true ∧
       grants fileMode S_IRGRP = true ∧ grants fileMode S_IWGRP = true ∧
       grants fileMode S_IROTH = true ∧ grants fileMode S_IWOTH = false ∧
       grants fileMode S_IXUSR = false ∧ grants fileMode S_IXGRP = false ∧
       grants fileMode S_IXOTH = false) :=
  c2_walk_modes (fun _ => ChmodOutcome.ok) [⟨["docs"], ["f"]⟩]
    [(["docs"], true, dirMode), (["docs", "f"], false, fileMode)] ["docs"] true dirMode
    rfl (by decide)

/-- C3 counterexample: for the whitespace-only version file `" "` the script
does not exit — group 2 of the match is the nonempty string `" "`, so the run
succeeds with the empty version; likewise a nonempty file with no `=` (here
`"abc"`) yields its own contents rather than the diagnostic exit. -/
theorem c3_no_exit_cex :
    driver [' '] [] (fun _ => []) (fun _ => ChmodOutcome.ok) 0
        = Except.ok ⟨[], [], none, Except.ok []⟩ ∧
      extractVersion [' '] = some [] ∧
      extractVersion ['a', 'b', 'c'] = some ['a', 'b', 'c'] :=
  ⟨rfl, rfl, rfl⟩

/-- C3 (amended): the script terminates with the diagnostic
`Unable to find version in LIBNO` exactly when the version-file contents are
empty or end in the character `=` (i.e. the text after the last `=` is
empty); whitespace-only nonempty contents and `=`-free nonempty contents do
not trigger the exit — their stripped text becomes the version. -/
theorem c3_version_exit_iff (libno : List Char) (config : List (List Char))
    (walkFn : Option (List Char) → List WalkItem) (oracle : List String → ChmodOutcome)
    (e : Int) :
    driver libno config walkFn oracle e
        = Except.error ("Unable to find version in LIBNO".toList) ↔
      (libno = [] ∨ endsWithEq libno = true) := by
  rw [← extractVersion_eq_none_iff]
  constructor
  · intro h
    rcases hv : extractVersion libno with _ | v
    · rfl
    · rw [driver_some libno config walkFn oracle e v hv] at h
      exact absurd h (by simp)
  · intro h
    exact driver_none libno config walkFn oracle e h

/-- C3 witness: the theorem applied to the contents `"="`, which do end in
`=` and therefore produce the diagnostic exit. -/
theorem c3_version_exit_iff_witness :
    driver ['='] [] (fun _ => []) (fun _ => ChmodOutcome.ok) 0
      = Except.error ("Unable to find version in LIBNO".toList) :=
  (c3_version_exit_iff ['='] [] (fun _ => []) (fun _ => ChmodOutcome.ok) 0).2
    (Or.inr (by decide))

/-- C4 counterexample: with two OUTPUT_DIRECTORY lines the captured value
comes from the second (last) matching line, not the first, and it keeps its
trailing whitespace (it is not equal to its stripped form). -/
theorem c4_capture_cex :
    (transformConfig ['1']
          ["OUTPUT_DIRECTORY = a".toList, "OUTPUT_DIRECTORY = b ".toList]).2
        = some ['b', ' '] ∧
      some (['b', ' '] : List Char) ≠ some "a".toList ∧
      pyStrip ['b', ' '] ≠ ['b', ' '] := by
  decide

/-- C4 (amended): the output directory is the capture of the last matching
OUTPUT_DIRECTORY line (each match overwrites the variable), and the captured
value is the text following `=` with only the whitespace after `=` skipped —
trailing whitespace is preserved; for a line with no trailing whitespace such
as `OUTPUT_DIRECTORY = build/docs` the capture equals `build/docs`. -/
theorem c4_output_dir_capture (v : List Char) (lines : List (List Char))
    (ws1 ws2 tail : List Char)
    (h1 : ∀ c ∈ ws1, isPySpace c = true) (h2 : ∀ c ∈ ws2, isPySpace c = true) :
    (transformConfig v lines).2 = lastOutputDirCapture lines ∧
      matchOutputDir (ws1 ++ (odKey ++ (ws2 ++ '=' :: tail)))
        = some (tail.dropWhile isPySpace) :=
  ⟨transform_snd v lines, matchOutputDir_decomp ws1 ws2 tail h1 h2⟩

/-- C4 witness: the theorem applied to the line
`OUTPUT_DIRECTORY = build/docs`, whose capture is `build/docs`. -/
theorem c4_output_dir_capture_witness :
    matchOutputDir "OUTPUT_DIRECTORY = build/docs".toList = some "build/docs".toList := by
  have h := (c4_output_dir_capture ['1'] [] [] [' '] (' ' :: "build/docs".toList)
    (by decide) (by decide)).2
  have e1 : ([] : List Char) ++ (odKey ++ ([' '] ++ '=' :: (' ' :: "build/docs".toList)))
      = "OUTPUT_DIRECTORY = build/docs".toList := by decide
  have e2 : (' ' :: "build/docs".toList).dropWhile isPySpace = "build/docs".toList := by
    decide
  rw [e1, e2] at h
  exact h

/-- C5 (confirmed): for every line of shape
`<ws>PROJECT_NUMBER<ws>=<ws><digits-and-dots><rest>` the matcher returns the
prefix through the whitespace after `=`, the numeric run, and the rest, and
the rewrite loop emits exactly the line with the numeric run replaced by the
version string (prefix and trailing text preserved) instead of the original
line. -/
theorem c5_project_number_rewrite (v ws1 ws2 ws3 num post : List Char)
    (rest : List (List Char))
    (h1 : ∀ c ∈ ws1, isPySpace c = true) (h2 : ∀ c ∈ ws2, isPySpace c = true)
    (h3 : ∀ c ∈ ws3, isPySpace c = true)
    (h4 : num ≠ []) (h5 : ∀ c ∈ num, isVerChar c = true)
    (h6 : ∀ c, post.head? = some c → isVerChar c = false) :
    matchProjectNumber (ws1 ++ (pnKey ++ (ws2 ++ '=' :: (ws3 ++ (num ++ post)))))
        = some (ws1 ++ pnKey ++ ws2 ++ ['='] ++ ws3, num, post) ∧
      transformConfig v ((ws1 ++ (pnKey ++ (ws2 ++ '=' :: (ws3 ++ (num ++ post))))) :: rest)
        = ((ws1 ++ pnKey ++ ws2 ++ ['='] ++ ws3 ++ v ++ post) :: (transformConfig v rest).1,
           (transformConfig v rest).2) := by
  have hm := matchProjectNumber_decomp ws1 ws2 ws3 num post h1 h2 h3 h4 h5 h6
  refine ⟨hm, ?_⟩
  rw [transform_cons_rewrite v _ rest _ _ _ (line_pn_not_blank ws1 _)
      (line_pn_not_comment ws1 _ h1) hm,
    line_pn_no_od ws1 _ h1]
  rcases hsnd : (transformConfig v rest).2 with _ | g <;> simp [hsnd]

/-- C5 witness: the theorem applied to the line
`PROJECT_NUMBER = 1.0.0 # comment` with version `2.3.4`, yielding exactly
`PROJECT_NUMBER = 2.3.4 # comment`. -/
theorem c5_project_number_rewrite_witness :
    transformConfig "2.3.4".toList ["PROJECT_NUMBER = 1.0.0 # comment".toList]
      = (["PROJECT_NUMBER = 2.3.4 # comment".toList], none) := by
  have h := (c5_project_number_rewrite "2.3.4".toList [] [' '] [' ']
    "1.0.0".toList " # comment".toList []
    (by decide) (by decide) (by decide) (by decide) (by decide) (by decide)).2
  have e1 : ([] : List Char) ++ (pnKey ++ ([' '] ++ '=' :: ([' '] ++
        ("1.0.0".toList ++ " # comment".toList))))
      = "PROJECT_NUMBER = 1.0.0 # comment".toList := by decide
  have e2 : ([] : List Char) ++ pnKey ++ [' '] ++ ['='] ++ [' '] ++ "2.3.4".toList ++
        " # comment".toList
      = "PROJECT_NUMBER = 2.3.4 # comment".toList := by decide
  rw [e1, e2] at h
  exact h

/-- C6 (confirmed): the extracted version is exactly determined by the
spec-side reading — the maximal `=`-free suffix of the contents (the whole
contents when no `=` occurs), stripped of surrounding whitespace, with the
exit firing exactly when that suffix is empty; in particular `1.2=3.4.5`
yields `3.4.5`. -/
theorem c6_version_extraction (l : List Char) :
    extractVersion l =
        (if specAfterLastEq l = [] then none else some (pyStrip (specAfterLastEq l))) ∧
      extractVersion "1.2=3.4.5".toList = some "3.4.5".toList := by
  constructor
  · simp only [extractVersion]
    rw [afterLastEq_eq_spec l]
  · decide

/-- C7 (confirmed): when no chmod raises a non-permission error the walk
completes, setting modes exactly on the targets whose chmod succeeded
(permission-denied targets are silently skipped and traversal continues);
and the walk dies exactly when some reached chmod raises an error of another
type. -/
theorem c7_walk_error_tolerance (oracle : List String → ChmodOutcome)
    (items : List WalkItem) :
    ((∀ q ∈ walkTargets items, oracle q ≠ ChmodOutcome.otherError) →
        walkLoop oracle items = Except.ok (okEvents oracle items)) ∧
      (walkLoop oracle items = Except.error () ↔
        ∃ q ∈ walkTargets items, oracle q = ChmodOutcome.otherError) :=
  ⟨walkLoop_ok_of_noOther oracle items, walkLoop_error_iff oracle items⟩

/-- C7 witness: the theorem applied to a tree where the chmod of file `a` is
permission-denied — the walk still chmods the directory and the sibling file
`b`. -/
theorem c7_walk_error_tolerance_witness :
    walkLoop
        (fun q => if q = ["out", "a"] then ChmodOutcome.permissionDenied else ChmodOutcome.ok)
        [⟨["out"], ["a", "b"]⟩]
      = Except.ok [(["out"], true, dirMode), (["out", "b"], false, fileMode)] := by
  have h := (c7_walk_error_tolerance
    (fun q => if q = ["out", "a"] then ChmodOutcome.permissionDenied else ChmodOutcome.ok)
    [⟨["out"], ["a", "b"]⟩]).1 (by decide)
  exact h.trans (by rfl)

/-- C8 (confirmed): the driver's result does not depend on the exit status of
the doxygen subprocess in any way, and whenever the version was extracted the
run yields a success result that already contains the permission-walk
outcome — the walk phase is always reached, whatever the exit status was. -/
theorem c8_doxygen_exit_ignored (libno : List Char) (config : List (List Char))
    (walkFn : Option (List Char) → List WalkItem) (oracle : List String → ChmodOutcome)
    (e1 e2 : Int) :
    driver libno config walkFn oracle e1 = driver libno config walkFn oracle e2 ∧
      (∀ v, extractVersion libno = some v →
        driver libno config walkFn oracle e1 =
          Except.ok ⟨v, (transformConfig v config).1, (transformConfig v config).2,
            walkLoop oracle (walkFn (transformConfig v config).2)⟩) :=
  ⟨rfl, fun v hv => driver_some libno config walkFn oracle e1 v hv⟩

/-- C8 witness: the theorem applied to the contents `LIBNO=1.0` and exit
statuses 0 and 7. -/
theorem c8_doxygen_exit_ignored_witness :
    driver "LIBNO=1.0".toList [] (fun _ => []) (fun _ => ChmodOutcome.ok) 0
      = Except.ok ⟨"1.0".toList, [], none, Except.ok []⟩ := by
  have h := (c8_doxygen_exit_ignored "LIBNO=1.0".toList [] (fun _ => [])
    (fun _ => ChmodOutcome.ok) 0 7).2 "1.0".toList (by decide)
  exact h.trans (by rfl)

/-- C9 (confirmed): when no configuration line matches the OUTPUT_DIRECTORY
pattern the captured output directory stays `none`, and the run still invokes
the walk enumeration with that absent value instead of skipping it or
failing with a curated message. -/
theorem c9_missing_output_dir (libno : List Char) (config : List (List Char))
    (walkFn : Option (List Char) → List WalkItem) (oracle : List String → ChmodOutcome)
    (e : Int) (v : List Char) (hv : extractVersion libno = some v)
    (hno : ∀ line ∈ config, matchOutputDir line = none) :
    driver libno config walkFn oracle e =
      Except.ok ⟨v, (transformConfig v config).1, none, walkLoop oracle (walkFn none)⟩ := by
  have h2 := transform_snd_none v config hno
  rw [driver_some libno config walkFn oracle e v hv, h2]

/-- C9 witness: the theorem applied to a config whose only line `A = b`
matches nothing. -/
theorem c9_missing_output_dir_witness :
    driver "V=2".toList ["A = b".toList] (fun _ => []) (fun _ => ChmodOutcome.ok) 0
      = Except.ok ⟨['2'], ["A = b".toList], none, Except.ok []⟩ := by
  have h := c9_missing_output_dir "V=2".toList ["A = b".toList] (fun _ => [])
    (fun _ => ChmodOutcome.ok) 0 ['2'] (by decide) (by decide)
  exact h.trans (by rfl)

/-- C10 (confirmed): a line `<ws>PROJECT_NUMBER<ws>=<tail>` whose first
non-whitespace character after the assignment is not a digit or dot
(including an empty value) does not match the rewrite pattern, and the
rewrite loop passes it through unchanged. -/
theorem c10_project_number_no_digits (v ws1 ws2 tail : List Char)
    (rest : List (List Char))
    (h1 : ∀ c ∈ ws1, isPySpace c = true) (h2 : ∀ c ∈ ws2, isPySpace c = true)
    (h6 : ∀ c, (tail.dropWhile isPySpace).head? = some c → isVerChar c = false) :
    matchProjectNumber (ws1 ++ (pnKey ++ (ws2 ++ '=' :: tail))) = none ∧
      transformConfig v ((ws1 ++ (pnKey ++ (ws2 ++ '=' :: tail))) :: rest)
        = ((ws1 ++ (pnKey ++ (ws2 ++ '=' :: tail))) :: (transformConfig v rest).1,
           (transformConfig v rest).2) := by
  have hm := matchProjectNumber_none_decomp ws1 ws2 tail h1 h2 h6
  refine ⟨hm, ?_⟩
  rw [transform_cons_pass v _ rest (line_pn_not_blank ws1 _)
      (line_pn_not_comment ws1 _ h1) hm,
    line_pn_no_od ws1 _ h1]
  rcases hsnd : (transformConfig v rest).2 with _ | g <;> simp [hsnd]

/-- C10 witness: the theorem applied to the line `PROJECT_NUMBER = x1`, which
is passed through unchanged. -/
theorem c10_project_number_no_digits_witness :
    transformConfig ['9'] ["PROJECT_NUMBER = x1".toList]
      = (["PROJECT_NUMBER = x1".toList], none) := by
  have h := (c10_project_number_no_digits ['9'] [] [' '] (' ' :: ['x', '1']) []
    (by decide) (by decide) (by decide)).2
  have e1 : ([] : List Char) ++ (pnKey ++ ([' '] ++ '=' :: (' ' :: ['x', '1'])))
      = "PROJECT_NUMBER = x1".toList := by decide
  rw [e1] at h
  exact h

end MakeDoc
